import Mathlib

/-!
# Verification of the performance-dashboard core

Shallow embedding of the data-validation and aggregation logic of
`performance-allegion-app.py`: schema validation (required columns and
constant-column consistency), metadata extraction (constant fields,
distinct features and KPI names, feature→KPI grouping), and per-KPI
aggregation (run indexing by load group, per-load mean / min / max /
median statistics).

Datasets are lists of rows; a row carries the eight required columns,
with `KPI Value` as a rational number (exact arithmetic standing in for
the float measurements).  The pandas calls are embedded as list
functions: `.unique()` is first-seen deduplication, `.nunique()` its
length, `groupby(...).cumcount()` a per-key running counter,
`groupby(...).agg` a map over the distinct keys.
-/

namespace PerfApp

/-- One dataset row, with the eight required columns.  `Load` is kept as a
categorical label (string); `KPI Value` is a rational measurement. -/
structure Row where
  os : String
  build : String
  device : String
  osVersion : String
  load : String
  feature : String
  kpiName : String
  kpiValue : ℚ
deriving DecidableEq

/-- An uploaded dataset: the CSV header (actual column names, which may
differ from the required ones) together with the parsed rows. -/
structure Dataset where
  columns : List String
  rows : List Row
deriving DecidableEq

/-- `REQUIRED_COLUMNS` from the source. -/
def REQUIRED_COLUMNS : List String :=
  ["OS", "Build Number", "Target Device", "OS Version", "Load", "feature", "KPI Name", "KPI Value"]

/-- `CONSTANT_COLUMNS` from the source. -/
def CONSTANT_COLUMNS : List String :=
  ["OS", "Build Number", "Target Device", "OS Version"]

/-- String-valued cell access `row[col]` for the categorical columns. -/
def Row.colValue (r : Row) (c : String) : String :=
  if c = "OS" then r.os
  else if c = "Build Number" then r.build
  else if c = "Target Device" then r.device
  else if c = "OS Version" then r.osVersion
  else if c = "Load" then r.load
  else if c = "feature" then r.feature
  else if c = "KPI Name" then r.kpiName
  else ""

/-- The column `data_set[col]` as the list of its cell values. -/
def colValues (ds : Dataset) (c : String) : List String :=
  ds.rows.map (fun r => r.colValue c)

/-- Worker for `uniqueList`: keeps the elements not seen before, in
order, threading the set of values already emitted. -/
def uniqueAux {α : Type} [DecidableEq α] : List α → List α → List α
  | [], _ => []
  | x :: xs, seen => if x ∈ seen then uniqueAux xs seen else x :: uniqueAux xs (x :: seen)

/-- First-seen deduplication: the embedding of pandas `Series.unique()`,
which returns the distinct values in order of first appearance. -/
def uniqueList {α : Type} [DecidableEq α] (l : List α) : List α := uniqueAux l []

/-- `data_set[col].nunique()`: the number of distinct values in a column. -/
def nunique (ds : Dataset) (c : String) : Nat :=
  (uniqueList (colValues ds c)).length

/-- Line 36: `[col for col in REQUIRED_COLUMNS if col not in uploaded_csv_column]`. -/
def missing_columns (ds : Dataset) : List String :=
  REQUIRED_COLUMNS.filter (fun col => !(ds.columns.contains col))

/-- Line 44: `all(data_set[col].nunique() == 1 for col in CONSTANT_COLUMNS)`. -/
def csv_status (ds : Dataset) : Bool :=
  CONSTANT_COLUMNS.all (fun c => nunique ds c == 1)

/-- Outcome of the validation phase (lines 36–50). -/
inductive ValidationResult where
  | missingColumns (missing : List String)
  | inconsistentConstants
  | ok
deriving DecidableEq

/-- `validate`: the validation phase of the script.  Missing required
columns are reported first (with the full list, line 38); otherwise the
constant-column consistency flag decides between failure and success. -/
def validate (ds : Dataset) : ValidationResult :=
  let m := missing_columns ds
  if m ≠ [] then .missingColumns m
  else if csv_status ds then .ok
  else .inconsistentConstants

/-! ## Metadata Extractor (lines 56–99) -/

/-- A junk row standing for the undefined result of `iloc[0]` on an empty
frame; never reached on validated data (constant columns force ≥ 1 row). -/
def defaultRow : Row :=
  { os := "", build := "", device := "", osVersion := "",
    load := "", feature := "", kpiName := "", kpiValue := 0 }

/-- The `feature` column of the dataset. -/
def featureCol (ds : Dataset) : List String := ds.rows.map Row.feature

/-- The `KPI Name` column of the dataset. -/
def kpiCol (ds : Dataset) : List String := ds.rows.map Row.kpiName

/-- Line 63: `data_set['feature'].unique()`. -/
def unique_features (ds : Dataset) : List String := uniqueList (featureCol ds)

/-- Line 64: `data_set['KPI Name'].unique()`. -/
def unique_kpis (ds : Dataset) : List String := uniqueList (kpiCol ds)

/-- Line 72: `unique_kpis[:3]`, the default of the KPI multiselect. -/
def default_kpis (ds : Dataset) : List String := (unique_kpis ds).take 3

/-- Metadata shown in the preview container (lines 56–99). -/
structure Metadata where
  os : String
  build : String
  device : String
  osVersion : String
  uniqueFeatures : List String
  uniqueKpis : List String
deriving DecidableEq

/-- Lines 57–64: constant fields read from the first row, plus the
distinct feature and KPI names. -/
def extract (ds : Dataset) : Metadata :=
  let first := ds.rows.headD defaultRow
  { os := first.os, build := first.build, device := first.device,
    osVersion := first.osVersion,
    uniqueFeatures := unique_features ds,
    uniqueKpis := unique_kpis ds }

/-- Lexicographic comparison of character lists by code point: the order
Python's `sorted` uses on strings. -/
def charListLe : List Char → List Char → Bool
  | [], _ => true
  | _ :: _, [] => false
  | a :: as, b :: bs =>
      if a < b then true
      else if b < a then false
      else charListLe as bs

/-- Lexicographic string comparison (the comparator of `sorted`). -/
def strLe (a b : String) : Bool := charListLe a.data b.data

/-- Insert a string into a `strLe`-sorted list, keeping it sorted. -/
def insertStr (x : String) : List String → List String
  | [] => [x]
  | y :: ys => if strLe x y then x :: y :: ys else y :: insertStr x ys

/-- Python's `sorted` on strings: lexicographic insertion sort. -/
def sortStrings : List String → List String
  | [] => []
  | x :: xs => insertStr x (sortStrings xs)

/-- Lines 94–98: `data_set.groupby('feature')['KPI Name'].unique()`, each
entry displayed through `sorted(kpis)`.  The feature keys are listed in
first-seen order; the claims under verification quantify over the distinct
feature values, so the key order is immaterial here. -/
def grouped (ds : Dataset) : List (String × List String) :=
  (unique_features ds).map (fun f =>
    (f, sortStrings (uniqueList ((ds.rows.filter (fun r => r.feature == f)).map Row.kpiName))))

/-! ## KPI Aggregator (lines 113–153) -/

/-- Line 115: `data_set[data_set['KPI Name'] == kpi]` (row order kept). -/
def filterKpi (rows : List Row) (kpi : String) : List Row :=
  rows.filter (fun r => r.kpiName == kpi)

/-- Running per-load counter: each row is paired with `cnt r.load + 1`
where `cnt` counts the rows with the same `Load` seen so far. -/
def cumcountAux : List Row → (String → Nat) → List (Row × Nat)
  | [], _ => []
  | r :: rs, cnt =>
      (r, cnt r.load + 1) ::
        cumcountAux rs (fun l => if l = r.load then cnt l + 1 else cnt l)

/-- Line 116: `kpi_data.groupby('Load').cumcount() + 1`, pairing each row
of the filtered frame with its 1-based run index within its load group. -/
def withRun (rows : List Row) : List (Row × Nat) :=
  cumcountAux rows (fun _ => 0)

/-- The distinct `Load` values of a row list, in first-seen order (the
claims quantify over the distinct loads, so key order is immaterial). -/
def loadLevels (rows : List Row) : List String :=
  uniqueList (rows.map Row.load)

/-- The `KPI Value` entries of the rows at a given load. -/
def groupVals (rows : List Row) (l : String) : List ℚ :=
  (rows.filter (fun r => r.load == l)).map Row.kpiValue

/-- Arithmetic mean of a list of rationals (0 on the empty list, where
pandas would give NaN; only applied to nonempty groups). -/
def mean (l : List ℚ) : ℚ := l.sum / l.length

/-- Minimum of a list of rationals (0 on the empty list). -/
def listMin : List ℚ → ℚ
  | [] => 0
  | x :: xs => xs.foldl min x

/-- Maximum of a list of rationals (0 on the empty list). -/
def listMax : List ℚ → ℚ
  | [] => 0
  | x :: xs => xs.foldl max x

/-- Median: midpoint of the sorted values; for an even count the average
of the two central values (0 on the empty list, where pandas gives NaN). -/
def median (l : List ℚ) : ℚ :=
  let s := List.insertionSort (fun a b => a ≤ b) l
  let n := s.length
  if n = 0 then 0
  else if n % 2 = 1 then s.getD (n / 2) 0
  else (s.getD (n / 2 - 1) 0 + s.getD (n / 2) 0) / 2

/-- Line 135: `kpi_data.groupby('Load', as_index=False)['KPI Value'].mean()`,
one (Load, mean) row per distinct load of the filtered frame. -/
def mean_data (rows : List Row) : List (String × ℚ) :=
  (loadLevels rows).map (fun l => (l, mean (groupVals rows l)))

/-- Per-load summary statistics: (min, max, mean, median). -/
structure LoadStats where
  min : ℚ
  max : ℚ
  mean : ℚ
  median : ℚ
deriving DecidableEq

/-- Line 151: `kpi_data.groupby('Load')['KPI Value'].agg(['min','max','mean','median'])`. -/
def summary (rows : List Row) : List (String × LoadStats) :=
  (loadLevels rows).map (fun l =>
    (l, { min := listMin (groupVals rows l), max := listMax (groupVals rows l),
          mean := mean (groupVals rows l), median := median (groupVals rows l) }))

/-- The derived tables rendered for one selected KPI. -/
structure KpiAnalysis where
  trend : List (Row × Nat)
  bar : List (String × ℚ)
  stats : List (String × LoadStats)
deriving DecidableEq

/-- Lines 115–153 for one KPI: `kpi_data` is a copy of the filtered rows
(`.copy()`), the `Run` column is added to that copy only, and the three
derived tables are computed from it.  The dataset component of the result
is the script's `data_set` after the section ran: unchanged, since only
the copy was written to. -/
def aggregate (ds : Dataset) (kpi : String) : Dataset × KpiAnalysis :=
  let kpi_data := filterKpi ds.rows kpi
  let kpi_run := withRun kpi_data
  (ds, { trend := kpi_run, bar := mean_data kpi_data, stats := summary kpi_data })

/-! ## Top-level control flow (lines 30–153) -/

/-- What the script renders for one upload: exactly one of the two
validation error screens, or the dashboard (metadata preview plus one
analysis section per selected KPI). -/
inductive AppOutput where
  | missingColumnsError (missing : List String) (required : List String)
  | inconsistentDataError (constants : List String)
  | dashboard (md : Metadata) (featureMap : List (String × List String))
      (analyses : List (String × KpiAnalysis))
deriving DecidableEq

/-- The whole per-upload run, parameterised by the user's KPI selection:
missing columns stop the script (line 40); a failed constant-column check
renders only the error (lines 46–47); otherwise the metadata, the
feature→KPI grouping and one analysis section per selected KPI render. -/
def runApp (ds : Dataset) (selected : List String) : AppOutput :=
  let m := missing_columns ds
  if m ≠ [] then .missingColumnsError m REQUIRED_COLUMNS
  else if !csv_status ds then .inconsistentDataError CONSTANT_COLUMNS
  else .dashboard (extract ds) (grouped ds)
        (selected.map (fun k => (k, (aggregate ds k).2)))

/-- The run with the default KPI selection (`unique_kpis[:3]`). -/
def runAppDefault (ds : Dataset) : AppOutput :=
  runApp ds (default_kpis ds)

/-- Whether an output contains any rendered dashboard section. -/
def AppOutput.isDashboard : AppOutput → Bool
  | .dashboard _ _ _ => true
  | _ => false

/-! ## Concrete datasets used to exercise the theorems -/

/-- A row of a well-formed upload with fixed constant fields. -/
def mkRow (load feat kpi : String) (v : ℚ) : Row :=
  { os := "Android", build := "7.1.2", device := "Pixel", osVersion := "14",
    load := load, feature := feat, kpiName := kpi, kpiValue := v }

/-- The spec's worked scenario: two load levels, three runs each, one KPI. -/
def sampleDs : Dataset :=
  { columns := REQUIRED_COLUMNS,
    rows := [mkRow "Low" "login" "Latency" 1, mkRow "Low" "login" "Latency" 2,
             mkRow "Low" "login" "Latency" 3, mkRow "High" "login" "Latency" 4,
             mkRow "High" "login" "Latency" 5, mkRow "High" "login" "Latency" 6] }

/-- An upload whose header lacks the `Load` and `KPI Value` columns. -/
def missingDs : Dataset :=
  { columns := ["OS", "Build Number", "Target Device", "OS Version", "feature", "KPI Name"],
    rows := [] }

/-- An upload with the correct header and zero rows. -/
def emptyDs : Dataset :=
  { columns := REQUIRED_COLUMNS, rows := [] }

/-- A valid upload whose distinct KPI names appear in the unsorted order
B, A, C, D. -/
def fourKpiDs : Dataset :=
  { columns := REQUIRED_COLUMNS,
    rows := [mkRow "Low" "login" "B" 1, mkRow "Low" "login" "A" 2,
             mkRow "Low" "login" "C" 3, mkRow "Low" "login" "D" 4,
             mkRow "High" "login" "B" 5] }

/-- A valid upload with only two distinct KPI names. -/
def twoKpiDs : Dataset :=
  { columns := REQUIRED_COLUMNS,
    rows := [mkRow "Low" "login" "A" 1, mkRow "Low" "login" "B" 2,
             mkRow "High" "login" "A" 3] }

/-! ## Basic lemmas about the embedded pandas primitives -/

/-- Membership in `uniqueAux`: the values of the input not yet seen. -/
theorem mem_uniqueAux {α : Type} [DecidableEq α] (l seen : List α) (a : α) :
    a ∈ uniqueAux l seen ↔ a ∈ l ∧ a ∉ seen := by
  induction l generalizing seen with
  | nil => simp [uniqueAux]
  | cons x xs ih =>
      by_cases hx : x ∈ seen
      · rw [uniqueAux, if_pos hx, ih]
        by_cases hax : a = x <;> simp [hax, hx]
      · rw [uniqueAux, if_neg hx]
        by_cases hax : a = x <;> simp [hax, hx, ih, List.mem_cons]

/-- `uniqueList` keeps exactly the values of the input. -/
theorem mem_uniqueList {α : Type} [DecidableEq α] (l : List α) (a : α) :
    a ∈ uniqueList l ↔ a ∈ l := by
  simp [uniqueList, mem_uniqueAux]

/-- `uniqueAux` emits no duplicates. -/
theorem nodup_uniqueAux {α : Type} [DecidableEq α] (l seen : List α) :
    (uniqueAux l seen).Nodup := by
  induction l generalizing seen with
  | nil => simp [uniqueAux]
  | cons x xs ih =>
      by_cases hx : x ∈ seen
      · rw [uniqueAux, if_pos hx]; exact ih seen
      · rw [uniqueAux, if_neg hx]
        refine List.Nodup.cons ?_ (ih (x :: seen))
        intro hmem
        exact ((mem_uniqueAux _ _ _).mp hmem).2 (List.mem_cons_self x seen)

/-- `uniqueList` has no duplicates. -/
theorem nodup_uniqueList {α : Type} [DecidableEq α] (l : List α) :
    (uniqueList l).Nodup := nodup_uniqueAux l []

/-- `uniqueAux` is a sublist of its input. -/
theorem uniqueAux_sublist {α : Type} [DecidableEq α] (l seen : List α) :
    (uniqueAux l seen).Sublist l := by
  induction l generalizing seen with
  | nil => simp [uniqueAux]
  | cons x xs ih =>
      by_cases hx : x ∈ seen
      · rw [uniqueAux, if_pos hx]; exact (ih seen).cons x
      · rw [uniqueAux, if_neg hx]; exact (ih (x :: seen)).cons₂ x

/-- `uniqueList` is a sublist of the input: the distinct values appear in
first-seen order, never reordered. -/
theorem uniqueList_sublist {α : Type} [DecidableEq α] (l : List α) :
    (uniqueList l).Sublist l := uniqueAux_sublist l []

/-- Looking up a key of `l` in the table pairing each key with `f` of it
yields `f` of the key. -/
theorem lookup_map_pair {α β : Type} [BEq α] [LawfulBEq α] (f : α → β)
    (l : List α) (a : α) (h : a ∈ l) :
    List.lookup a (l.map fun x => (x, f x)) = some (f a) := by
  induction l with
  | nil => cases h
  | cons x xs ih =>
      by_cases hax : a = x
      · subst hax
        simp [List.lookup]
      · have hbeq : (a == x) = false := by simp [hax]
        have hmem : a ∈ xs := by
          rcases List.mem_cons.mp h with h1 | h1
          · exact absurd h1 hax
          · exact h1
        simp [List.lookup, hbeq, ih hmem]

/-- The run indices that `cumcountAux` hands to the load-`L` rows are the
consecutive block starting right after the accumulated count of `L`. -/
theorem cumcountAux_runs (rows : List Row) (cnt : String → Nat) (L : String) :
    ((cumcountAux rows cnt).filter (fun p => p.1.load == L)).map Prod.snd
      = List.range' (cnt L + 1) ((rows.filter (fun r => r.load == L)).length) := by
  induction rows generalizing cnt with
  | nil => simp [cumcountAux]
  | cons r rs ih =>
      by_cases h : r.load = L
      · subst h
        have hbeq : (r.load == r.load) = true := by simp
        simp only [cumcountAux, List.filter_cons, hbeq, if_true, List.map_cons,
          List.length_cons, List.range'_succ, List.cons.injEq, true_and]
        rw [ih]
        simp
      · have hbeq : (r.load == L) = false := by simp [h]
        have hne : ¬(L = r.load) := fun hh => h hh.symm
        simp only [cumcountAux, List.filter_cons, hbeq, Bool.false_eq_true, if_false]
        rw [ih]
        simp [hne]

/-- `charListLe` is total. -/
theorem charListLe_total (as bs : List Char) :
    charListLe as bs = true ∨ charListLe bs as = true := by
  induction as generalizing bs with
  | nil => left; simp [charListLe]
  | cons a as ih =>
      cases bs with
      | nil => right; simp [charListLe]
      | cons b bs =>
          rcases lt_trichotomy a b with h | h | h
          · left; simp [charListLe, h]
          · subst h
            rcases ih bs with h1 | h1
            · left; simp [charListLe, lt_irrefl, h1]
            · right; simp [charListLe, lt_irrefl, h1]
          · right; simp [charListLe, h]

/-- `charListLe` is transitive. -/
theorem charListLe_trans {as bs cs : List Char}
    (h1 : charListLe as bs = true) (h2 : charListLe bs cs = true) :
    charListLe as cs = true := by
  induction as generalizing bs cs with
  | nil => simp [charListLe]
  | cons a as ih =>
      cases bs with
      | nil => simp [charListLe] at h1
      | cons b bs =>
          cases cs with
          | nil => simp [charListLe] at h2
          | cons c cs =>
              have hab : a < b ∨ (a = b ∧ charListLe as bs = true) := by
                by_cases hab : a < b
                · exact Or.inl hab
                · by_cases hba : b < a
                  · simp [charListLe, hab, hba] at h1
                  · refine Or.inr ⟨le_antisymm (not_lt.mp hba) (not_lt.mp hab), ?_⟩
                    simpa [charListLe, hab, hba] using h1
              have hbc : b < c ∨ (b = c ∧ charListLe bs cs = true) := by
                by_cases hbc : b < c
                · exact Or.inl hbc
                · by_cases hcb : c < b
                  · simp [charListLe, hbc, hcb] at h2
                  · refine Or.inr ⟨le_antisymm (not_lt.mp hcb) (not_lt.mp hbc), ?_⟩
                    simpa [charListLe, hbc, hcb] using h2
              rcases hab with hab | ⟨rfl, hab⟩
              · rcases hbc with hbc | ⟨rfl, hbc⟩
                · simp [charListLe, lt_trans hab hbc]
                · simp [charListLe, hab]
              · rcases hbc with hbc | ⟨rfl, hbc⟩
                · simp [charListLe, hbc]
                · simp [charListLe, lt_irrefl]
                  exact ih hab hbc

/-- `strLe` is total. -/
theorem strLe_total (a b : String) : strLe a b = true ∨ strLe b a = true :=
  charListLe_total a.data b.data

/-- `strLe` is transitive. -/
theorem strLe_trans {a b c : String} (h1 : strLe a b = true) (h2 : strLe b c = true) :
    strLe a c = true :=
  charListLe_trans h1 h2

/-- `insertStr` permutes consing. -/
theorem insertStr_perm (x : String) (l : List String) :
    (insertStr x l).Perm (x :: l) := by
  induction l with
  | nil => simp [insertStr]
  | cons y ys ih =>
      by_cases h : strLe x y = true
      · simp [insertStr, h]
      · simp only [insertStr, h, if_false, Bool.false_eq_true]
        exact (ih.cons y).trans (List.Perm.swap x y ys)

/-- `sortStrings` is a permutation of the input. -/
theorem sortStrings_perm (l : List String) : (sortStrings l).Perm l := by
  induction l with
  | nil => simp [sortStrings]
  | cons x xs ih =>
      exact (insertStr_perm x (sortStrings xs)).trans (ih.cons x)

/-- `sortStrings` keeps exactly the values of the input. -/
theorem mem_sortStrings (l : List String) (a : String) :
    a ∈ sortStrings l ↔ a ∈ l :=
  (sortStrings_perm l).mem_iff

/-- Inserting into a `strLe`-sorted list keeps it sorted. -/
theorem pairwise_insertStr {x : String} {l : List String}
    (h : l.Pairwise (fun a b => strLe a b = true)) :
    (insertStr x l).Pairwise (fun a b => strLe a b = true) := by
  induction l with
  | nil => simp [insertStr]
  | cons y ys ih =>
      by_cases hxy : strLe x y = true
      · simp only [insertStr, hxy, if_true]
        refine List.Pairwise.cons ?_ h
        intro z hz
        rcases List.mem_cons.mp hz with rfl | hz
        · exact hxy
        · exact strLe_trans hxy (List.rel_of_pairwise_cons h hz)
      · have hyx : strLe y x = true := (strLe_total x y).resolve_left hxy
        simp only [insertStr, hxy, if_false, Bool.false_eq_true]
        refine List.Pairwise.cons ?_ (ih (List.Pairwise.of_cons h))
        intro z hz
        rcases List.mem_cons.mp ((insertStr_perm x ys).mem_iff.mp hz) with rfl | h1
        · exact hyx
        · exact List.rel_of_pairwise_cons h h1

/-- `sortStrings` sorts w.r.t. the lexicographic order. -/
theorem sortStrings_sorted (l : List String) :
    (sortStrings l).Pairwise (fun a b => strLe a b = true) := by
  induction l with
  | nil => simp [sortStrings]
  | cons x xs ih => exact pairwise_insertStr ih

/-! ## Lemmas about the validator -/

/-- A column is reported missing exactly when it is required and absent. -/
theorem mem_missing_columns (ds : Dataset) (c : String) :
    c ∈ missing_columns ds ↔ c ∈ REQUIRED_COLUMNS ∧ c ∉ ds.columns := by
  simp [missing_columns, List.mem_filter]

/-- The constant-column flag is set exactly when every constant column has
one distinct value. -/
theorem csv_status_iff (ds : Dataset) :
    csv_status ds = true ↔ ∀ c ∈ CONSTANT_COLUMNS, nunique ds c = 1 := by
  simp [csv_status, List.all_eq_true]

/-! ## The claims -/

/-- C1: for every uploaded dataset missing at least one required column,
validation fails with `MissingColumns` listing exactly the set of absent
required columns (membership characterisation, without duplicates), and
the run renders only the error, whatever the KPI selection. -/
theorem claim_C1 (ds : Dataset) (h : ∃ c ∈ REQUIRED_COLUMNS, c ∉ ds.columns) :
    validate ds = .missingColumns (missing_columns ds)
      ∧ (∀ c, c ∈ missing_columns ds ↔ c ∈ REQUIRED_COLUMNS ∧ c ∉ ds.columns)
      ∧ (missing_columns ds).Nodup
      ∧ ∀ sel, runApp ds sel = .missingColumnsError (missing_columns ds) REQUIRED_COLUMNS := by
  obtain ⟨c, hc, hnc⟩ := h
  have hmem : c ∈ missing_columns ds := (mem_missing_columns ds c).mpr ⟨hc, hnc⟩
  have hne : missing_columns ds ≠ [] := List.ne_nil_of_mem hmem
  refine ⟨?_, mem_missing_columns ds, ?_, ?_⟩
  · simp [validate, hne]
  · exact List.Nodup.filter _ (by decide)
  · intro sel
    simp [runApp, hne]

/-- Witness for C1: an upload lacking `Load` and `KPI Value`. -/
theorem claim_C1_witness :
    (∃ c ∈ REQUIRED_COLUMNS, c ∉ missingDs.columns)
      ∧ (validate missingDs = .missingColumns (missing_columns missingDs)
          ∧ (∀ c, c ∈ missing_columns missingDs ↔ c ∈ REQUIRED_COLUMNS ∧ c ∉ missingDs.columns)
          ∧ (missing_columns missingDs).Nodup
          ∧ ∀ sel, runApp missingDs sel
              = .missingColumnsError (missing_columns missingDs) REQUIRED_COLUMNS) :=
  ⟨by decide, claim_C1 missingDs (by decide)⟩

/-- C2: for every dataset with all required columns present, validation
fails with `InconsistentConstants` exactly when some constant column has a
distinct-value count other than 1; a zero-row dataset always fails. -/
theorem claim_C2 (ds : Dataset) (h : missing_columns ds = []) :
    (validate ds = .inconsistentConstants ↔ ∃ c ∈ CONSTANT_COLUMNS, nunique ds c ≠ 1)
      ∧ (ds.rows = [] → validate ds = .inconsistentConstants) := by
  have hchar := csv_status_iff ds
  constructor
  · by_cases hs : csv_status ds = true
    · have : validate ds = .ok := by simp [validate, h, hs]
      simp only [this]
      constructor
      · intro hcontra; cases hcontra
      · rintro ⟨c, hc, hn⟩
        exact absurd (hchar.mp hs c hc) hn
    · have : validate ds = .inconsistentConstants := by simp [validate, h, hs]
      simp only [this, true_iff]
      by_contra hn
      push_neg at hn
      exact hs (hchar.mpr fun c hc => hn c hc)
  · intro hrows
    have h0 : nunique ds "OS" = 0 := by
      simp [nunique, colValues, hrows, uniqueList, uniqueAux]
    have hs : csv_status ds ≠ true := by
      intro hs
      have := hchar.mp hs "OS" (by decide)
      omega
    simp [validate, h, hs]

/-- Witness for C2: the zero-row dataset with a correct header fails the
constant-column check. -/
theorem claim_C2_witness :
    (missing_columns emptyDs = [])
      ∧ ((validate emptyDs = .inconsistentConstants
            ↔ ∃ c ∈ CONSTANT_COLUMNS, nunique emptyDs c ≠ 1)
          ∧ (emptyDs.rows = [] → validate emptyDs = .inconsistentConstants)) :=
  ⟨by decide, claim_C2 emptyDs (by decide)⟩

/-- C3: for every valid dataset and selected KPI, within each load group
of the KPI-filtered rows the assigned run indices, read in original row
order, are exactly the contiguous block 1..n where n is the size of that
load group (so no gaps and no duplicates). -/
theorem claim_C3 (ds : Dataset) (_hv : validate ds = .ok) (kpi L : String) :
    (((aggregate ds kpi).2.trend).filter (fun p => p.1.load == L)).map Prod.snd
      = List.range' 1 ((((aggregate ds kpi).2.trend).filter (fun p => p.1.load == L)).length) := by
  have h := cumcountAux_runs (filterKpi ds.rows kpi) (fun _ => 0) L
  have hlen := congrArg List.length h
  simp only [List.length_map, List.length_range'] at hlen
  simp only [aggregate, withRun] at *
  rw [h, hlen]

/-- Witness for C3: the spec's scenario dataset at load `Low`. -/
theorem claim_C3_witness :
    (validate sampleDs = .ok)
      ∧ (((aggregate sampleDs "Latency").2.trend).filter (fun p => p.1.load == "Low")).map Prod.snd
          = List.range' 1
              ((((aggregate sampleDs "Latency").2.trend).filter (fun p => p.1.load == "Low")).length) :=
  ⟨by decide, claim_C3 sampleDs (by decide) "Latency" "Low"⟩

/-- C4: for every valid dataset, selected KPI and load level present in
the filtered rows, the bar series carries the arithmetic mean (sum over
count) of that load group's KPI values, and the summary table carries its
min, max, mean and median, the median being the midpoint of a sorted
rearrangement of the group (average of the two central values when the
count is even). -/
theorem claim_C4 (ds : Dataset) (_hv : validate ds = .ok) (kpi L : String)
    (hL : L ∈ loadLevels (filterKpi ds.rows kpi)) :
    List.lookup L ((aggregate ds kpi).2.bar)
        = some ((groupVals (filterKpi ds.rows kpi) L).sum
                  / (groupVals (filterKpi ds.rows kpi) L).length)
      ∧ List.lookup L ((aggregate ds kpi).2.stats)
          = some { min := listMin (groupVals (filterKpi ds.rows kpi) L),
                   max := listMax (groupVals (filterKpi ds.rows kpi) L),
                   mean := (groupVals (filterKpi ds.rows kpi) L).sum
                             / (groupVals (filterKpi ds.rows kpi) L).length,
                   median := median (groupVals (filterKpi ds.rows kpi) L) }
      ∧ ∃ s : List ℚ, s.Perm (groupVals (filterKpi ds.rows kpi) L)
          ∧ List.Sorted (fun a b : ℚ => a ≤ b) s
          ∧ median (groupVals (filterKpi ds.rows kpi) L)
              = (if s.length % 2 = 1 then s.getD (s.length / 2) 0
                 else (s.getD (s.length / 2 - 1) 0 + s.getD (s.length / 2) 0) / 2) := by
  refine ⟨?_, ?_, ?_⟩
  · simpa [aggregate, mean_data, mean] using
      lookup_map_pair (fun l => mean (groupVals (filterKpi ds.rows kpi) l))
        (loadLevels (filterKpi ds.rows kpi)) L hL
  · simpa [aggregate, summary, mean] using
      lookup_map_pair
        (fun l => ({ min := listMin (groupVals (filterKpi ds.rows kpi) l),
                     max := listMax (groupVals (filterKpi ds.rows kpi) l),
                     mean := mean (groupVals (filterKpi ds.rows kpi) l),
                     median := median (groupVals (filterKpi ds.rows kpi) l) } : LoadStats))
        (loadLevels (filterKpi ds.rows kpi)) L hL
  · refine ⟨List.insertionSort (fun a b : ℚ => a ≤ b) (groupVals (filterKpi ds.rows kpi) L),
      List.perm_insertionSort _ _, List.sorted_insertionSort _ _, ?_⟩
    have hlen : (List.insertionSort (fun a b : ℚ => a ≤ b)
        (groupVals (filterKpi ds.rows kpi) L)).length
          = (groupVals (filterKpi ds.rows kpi) L).length :=
      (List.perm_insertionSort _ _).length_eq
    by_cases h0 : (groupVals (filterKpi ds.rows kpi) L).length = 0
    · have hnil : groupVals (filterKpi ds.rows kpi) L = [] := List.length_eq_zero.mp h0
      simp [median, hnil]
    · simp only [median, hlen, h0, if_false]

/-- Witness for C4: the spec's scenario dataset, KPI `Latency`, load `Low`. -/
theorem claim_C4_witness :
    (validate sampleDs = .ok)
      ∧ ("Low" ∈ loadLevels (filterKpi sampleDs.rows "Latency"))
      ∧ (List.lookup "Low" ((aggregate sampleDs "Latency").2.bar)
            = some ((groupVals (filterKpi sampleDs.rows "Latency") "Low").sum
                      / (groupVals (filterKpi sampleDs.rows "Latency") "Low").length)
          ∧ List.lookup "Low" ((aggregate sampleDs "Latency").2.stats)
              = some { min := listMin (groupVals (filterKpi sampleDs.rows "Latency") "Low"),
                       max := listMax (groupVals (filterKpi sampleDs.rows "Latency") "Low"),
                       mean := (groupVals (filterKpi sampleDs.rows "Latency") "Low").sum
                                 / (groupVals (filterKpi sampleDs.rows "Latency") "Low").length,
                       median := median (groupVals (filterKpi sampleDs.rows "Latency") "Low") }
          ∧ ∃ s : List ℚ, s.Perm (groupVals (filterKpi sampleDs.rows "Latency") "Low")
              ∧ List.Sorted (fun a b : ℚ => a ≤ b) s
              ∧ median (groupVals (filterKpi sampleDs.rows "Latency") "Low")
                  = (if s.length % 2 = 1 then s.getD (s.length / 2) 0
                     else (s.getD (s.length / 2 - 1) 0 + s.getD (s.length / 2) 0) / 2)) :=
  ⟨by decide, by decide, claim_C4 sampleDs (by decide) "Latency" "Low" (by decide)⟩

/-- C5: for every dataset and KPI name absent from the `KPI Name` column
(in particular for an empty dataset), every derived table of the
aggregation is empty, and the aggregation is total (no error path). -/
theorem claim_C5 (ds : Dataset) (kpi : String) (h : kpi ∉ kpiCol ds) :
    (aggregate ds kpi).2.trend = [] ∧ (aggregate ds kpi).2.bar = []
      ∧ (aggregate ds kpi).2.stats = [] := by
  have hf : filterKpi ds.rows kpi = [] := by
    simp only [filterKpi]
    rw [List.filter_eq_nil_iff]
    intro r hr
    simp only [beq_iff_eq]
    intro he
    exact h (List.mem_map.mpr ⟨r, hr, he⟩)
  refine ⟨?_, ?_, ?_⟩ <;>
    simp [aggregate, hf, withRun, cumcountAux, mean_data, summary, loadLevels,
      uniqueList, uniqueAux]

/-- Witness for C5: the empty dataset and the KPI `Latency`. -/
theorem claim_C5_witness :
    ("Latency" ∉ kpiCol emptyDs)
      ∧ ((aggregate emptyDs "Latency").2.trend = []
          ∧ (aggregate emptyDs "Latency").2.bar = []
          ∧ (aggregate emptyDs "Latency").2.stats = []) :=
  ⟨by decide, claim_C5 emptyDs "Latency" (by decide)⟩

/-- C6: for every valid dataset, the default KPI selection is the first
three entries of the distinct KPI names; that distinct list has no
duplicates, is a sublist of the `KPI Name` column (so it lists names in
order of first appearance, never reordered or sorted), and holds exactly
the names occurring in the column. -/
theorem claim_C6 (ds : Dataset) (_hv : validate ds = .ok) :
    default_kpis ds = (unique_kpis ds).take 3
      ∧ (unique_kpis ds).Nodup
      ∧ (unique_kpis ds).Sublist (kpiCol ds)
      ∧ (∀ k, k ∈ unique_kpis ds ↔ k ∈ kpiCol ds) :=
  ⟨rfl, nodup_uniqueList _, uniqueList_sublist _, fun k => mem_uniqueList _ k⟩

/-- Witness for C6: KPI names first observed in the order B, A, C, D give
the default selection [B, A, C], stable and unsorted. -/
theorem claim_C6_witness :
    (validate fourKpiDs = .ok)
      ∧ (default_kpis fourKpiDs = (unique_kpis fourKpiDs).take 3
          ∧ (unique_kpis fourKpiDs).Nodup
          ∧ (unique_kpis fourKpiDs).Sublist (kpiCol fourKpiDs)
          ∧ (∀ k, k ∈ unique_kpis fourKpiDs ↔ k ∈ kpiCol fourKpiDs))
      ∧ default_kpis fourKpiDs = ["B", "A", "C"] :=
  ⟨by decide, claim_C6 fourKpiDs (by decide), by decide⟩

/-- C7: for every valid dataset, the feature→KPI mapping has exactly the
distinct feature values as keys, and maps each feature with at least one
row to exactly the distinct KPI names of that feature's rows, listed in
lexicographic order without duplicates. -/
theorem claim_C7 (ds : Dataset) (_hv : validate ds = .ok) (f : String)
    (hf : ∃ r ∈ ds.rows, r.feature = f) :
    ((grouped ds).map Prod.fst = unique_features ds)
      ∧ (∀ g, g ∈ unique_features ds ↔ ∃ r ∈ ds.rows, r.feature = g)
      ∧ ∃ ks, List.lookup f (grouped ds) = some ks
          ∧ (∀ k, k ∈ ks ↔ ∃ r ∈ ds.rows, r.feature = f ∧ r.kpiName = k)
          ∧ ks.Pairwise (fun a b => strLe a b = true)
          ∧ ks.Nodup := by
  have hkeys : (grouped ds).map Prod.fst = unique_features ds := by
    rw [grouped, List.map_map]
    exact List.map_id (unique_features ds)
  have hmem : ∀ g, g ∈ unique_features ds ↔ ∃ r ∈ ds.rows, r.feature = g := by
    intro g
    simp [unique_features, mem_uniqueList, featureCol, List.mem_map]
  have hfu : f ∈ unique_features ds := (hmem f).mpr hf
  refine ⟨hkeys, hmem,
    sortStrings (uniqueList ((ds.rows.filter (fun r => r.feature == f)).map Row.kpiName)),
    ?_, ?_, ?_, ?_⟩
  · exact lookup_map_pair
      (fun g => sortStrings (uniqueList ((ds.rows.filter (fun r => r.feature == g)).map Row.kpiName)))
      (unique_features ds) f hfu
  · intro k
    simp [mem_sortStrings, mem_uniqueList, List.mem_map, List.mem_filter,
      and_assoc]
  · exact sortStrings_sorted _
  · exact (sortStrings_perm _).nodup_iff.mpr (nodup_uniqueList _)

/-- Witness for C7: the four-KPI dataset's single feature `login` maps to
the sorted list [A, B, C, D]. -/
theorem claim_C7_witness :
    (validate fourKpiDs = .ok)
      ∧ (∃ r ∈ fourKpiDs.rows, r.feature = "login")
      ∧ (((grouped fourKpiDs).map Prod.fst = unique_features fourKpiDs)
          ∧ (∀ g, g ∈ unique_features fourKpiDs ↔ ∃ r ∈ fourKpiDs.rows, r.feature = g)
          ∧ ∃ ks, List.lookup "login" (grouped fourKpiDs) = some ks
              ∧ (∀ k, k ∈ ks ↔ ∃ r ∈ fourKpiDs.rows, r.feature = "login" ∧ r.kpiName = k)
              ∧ ks.Pairwise (fun a b => strLe a b = true)
              ∧ ks.Nodup)
      ∧ List.lookup "login" (grouped fourKpiDs) = some ["A", "B", "C", "D"] :=
  ⟨by decide, by decide, claim_C7 fourKpiDs (by decide) "login" (by decide), by decide⟩

/-- C8: for every upload on which validation fails, with any KPI
selection, the run renders exactly one of the two error screens and no
dashboard section at all. -/
theorem claim_C8 (ds : Dataset) (h : validate ds ≠ .ok) (sel : List String) :
    (runApp ds sel = .missingColumnsError (missing_columns ds) REQUIRED_COLUMNS
        ∨ runApp ds sel = .inconsistentDataError CONSTANT_COLUMNS)
      ∧ (runApp ds sel).isDashboard = false := by
  by_cases hm : missing_columns ds = []
  · by_cases hs : csv_status ds = true
    · exact absurd (by simp [validate, hm, hs]) h
    · have hrun : runApp ds sel = .inconsistentDataError CONSTANT_COLUMNS := by
        simp [runApp, hm, hs]
      exact ⟨Or.inr hrun, by simp [hrun, AppOutput.isDashboard]⟩
  · have hrun : runApp ds sel = .missingColumnsError (missing_columns ds) REQUIRED_COLUMNS := by
      simp [runApp, hm]
    exact ⟨Or.inl hrun, by simp [hrun, AppOutput.isDashboard]⟩

/-- Witness for C8: the header-deficient upload with a nonempty selection. -/
theorem claim_C8_witness :
    (validate missingDs ≠ .ok)
      ∧ ((runApp missingDs ["Latency"]
            = .missingColumnsError (missing_columns missingDs) REQUIRED_COLUMNS
          ∨ runApp missingDs ["Latency"] = .inconsistentDataError CONSTANT_COLUMNS)
          ∧ (runApp missingDs ["Latency"]).isDashboard = false) :=
  ⟨by decide, claim_C8 missingDs (by decide) ["Latency"]⟩

/-- C9: aggregation hands back the dataset unchanged (the `Run` column is
added to a copy of the filtered rows only), so extraction and aggregation
run a second time on the resulting dataset give identical results. -/
theorem claim_C9 (ds : Dataset) (_hv : validate ds = .ok) (kpi : String) :
    (aggregate ds kpi).1 = ds
      ∧ extract ((aggregate ds kpi).1) = extract ds
      ∧ (aggregate ((aggregate ds kpi).1) kpi).2 = (aggregate ds kpi).2 :=
  ⟨rfl, rfl, rfl⟩

/-- Witness for C9: the spec's scenario dataset with KPI `Latency`. -/
theorem claim_C9_witness :
    (validate sampleDs = .ok)
      ∧ ((aggregate sampleDs "Latency").1 = sampleDs
          ∧ extract ((aggregate sampleDs "Latency").1) = extract sampleDs
          ∧ (aggregate ((aggregate sampleDs "Latency").1) "Latency").2
              = (aggregate sampleDs "Latency").2) :=
  ⟨by decide, claim_C9 sampleDs (by decide) "Latency"⟩

/-- C10: for every valid dataset with fewer than three distinct KPI
names, the default selection is all of the distinct names (taking the
first three of a shorter list truncates, it never fails). -/
theorem claim_C10 (ds : Dataset) (_hv : validate ds = .ok)
    (h : (unique_kpis ds).length < 3) :
    default_kpis ds = unique_kpis ds :=
  List.take_of_length_le (Nat.le_of_lt h)

/-- Witness for C10: a valid dataset with two distinct KPI names keeps
both in the default selection. -/
theorem claim_C10_witness :
    (validate twoKpiDs = .ok)
      ∧ (unique_kpis twoKpiDs).length < 3
      ∧ default_kpis twoKpiDs = unique_kpis twoKpiDs
      ∧ default_kpis twoKpiDs = ["A", "B"] :=
  ⟨by decide, by decide, claim_C10 twoKpiDs (by decide) (by decide), by decide⟩

end PerfApp
